import Mathlib

/-!
Verification development for the Shared-City-Scooter-Mapper repository.

The repository is a real-time shared-mobility heatmap pipeline: a producer
polls GBFS feeds, an aggregation worker merges per-vehicle observations into
a vehicle-state table (last-writer-wins keyed on `observedAt`), and a
windowed query engine answers per-cell occupancy queries at H3 resolutions
6-9.  The React frontend (Map.jsx, Stats.jsx, api.js, App.jsx) renders the
resulting GeoJSON and raises alerts for low-count hexagons.

The aggregation worker, vehicle-state store and query engine live in the
backend (`backend/consumers/aggregation_worker.py`, `backend/services/`),
which is not part of the source tree available here; those components are
modelled from the specification text, as marked on each definition.  The
frontend functions are translated directly from the JavaScript sources.
-/

namespace ScooterMap

/-! ## Core data model (spec-modelled: backend sources are absent) -/

/-- Modelled from the spec: an Observation record produced by the feed
poller, `{vehicleId, feedId, lat, lon, observedAt}`.  Coordinates are
rationals standing for the float64 payload values; `observedAt` is an
integer timestamp. -/
structure Observation where
  vehicleId : String
  feedId : String
  lat : ℚ
  lon : ℚ
  observedAt : ℤ
deriving DecidableEq, Repr

/-- Modelled from the spec: a VehicleState row, one per vehicle, with a
precomputed cell id for each configured resolution, stored as an
association list from resolution to cell id. -/
structure VehicleState where
  vehicleId : String
  feedId : String
  lat : ℚ
  lon : ℚ
  cellIds : List (ℕ × String)
  observedAt : ℤ
  ingestedAt : ℤ
deriving DecidableEq, Repr

/-- Modelled from the spec: the configuration surface consumed by the core
(`resolutions`, `occupancyWindow`, `retentionHorizon`, `batchSize`,
`batchFlushInterval`). -/
structure Config where
  resolutions : List ℕ
  occupancyWindow : ℤ
  retentionHorizon : ℤ
  batchSize : ℕ
  batchFlushInterval : ℤ
deriving DecidableEq, Repr

/-- The configuration used by the repository: resolutions 6, 7, 8, 9, a
5-minute occupancy window, a 60-minute retention horizon, batches of 1000
messages (from the README's configuration table). -/
def repoConfig : Config :=
  { resolutions := [6, 7, 8, 9]
    occupancyWindow := 300
    retentionHorizon := 3600
    batchSize := 1000
    batchFlushInterval := 60 }

/-- Modelled from the spec: the Vehicle State Store, one logical table of
VehicleState rows keyed by `vehicleId`. -/
abbrev Store : Type := List VehicleState

/-- Look up the stored row of a vehicle: the first row keyed by `v`. -/
def lookupState (s : Store) (v : String) : Option VehicleState :=
  match s with
  | [] => none
  | r :: rest => if r.vehicleId = v then some r else lookupState rest v

/-- Overwrite in place the row of the candidate's vehicle. -/
def replaceRow (s : Store) (c : VehicleState) : Store :=
  List.map (fun r => if r.vehicleId = c.vehicleId then c else r) s

/-- Modelled from the spec: the upsert policy of the Aggregation Worker
(absent backend `aggregation_worker.py`).  For vehicle `v`, let `existing`
be the stored row; apply the candidate iff `existing` is absent OR
`candidate.observedAt > existing.observedAt`; ties and regressions are
silently dropped. -/
def upsertIfNewer (s : Store) (c : VehicleState) : Store :=
  match lookupState s c.vehicleId with
  | none => s ++ [c]
  | some existing =>
      if existing.observedAt < c.observedAt then replaceRow s c else s

/-- Modelled from the spec: candidate construction — compute `cellId[r]`
for every configured resolution via the spatial-indexing capability
`cellFor` and build a candidate VehicleState row. -/
def mkCandidate (cellFor : ℚ → ℚ → ℕ → String) (cfg : Config)
    (tIngest : ℤ) (o : Observation) : VehicleState :=
  { vehicleId := o.vehicleId
    feedId := o.feedId
    lat := o.lat
    lon := o.lon
    cellIds := cfg.resolutions.map (fun r => (r, cellFor o.lat o.lon r))
    observedAt := o.observedAt
    ingestedAt := tIngest }

/-- Modelled from the spec: apply a batch of Observations to the store,
one conditional upsert per observation. -/
def applyBatch (cellFor : ℚ → ℚ → ℕ → String) (cfg : Config)
    (tIngest : ℤ) (s : Store) (b : List Observation) : Store :=
  b.foldl (fun st o => upsertIfNewer st (mkCandidate cellFor cfg tIngest o)) s

/-- Modelled from the spec: a sequence of successful batch applications. -/
def applyBatches (cellFor : ℚ → ℚ → ℕ → String) (cfg : Config)
    (tIngest : ℤ) (s : Store) (bs : List (List Observation)) : Store :=
  bs.foldl (fun st b => applyBatch cellFor cfg tIngest st b) s

/-- The observedAt currently stored for a vehicle, if any. -/
def storedObs (s : Store) (v : String) : Option ℤ :=
  (lookupState s v).map (fun r => r.observedAt)

/-- Modelled from the spec: the store read primitive `scanSince` — rows
with `observedAt >= T`. -/
def scanSince (s : Store) (t : ℤ) : Store :=
  List.filter (fun r => decide (t ≤ r.observedAt)) s

/-- Rows inside the recency window `[now - window, now]`. -/
def recentRows (s : Store) (now window : ℤ) : Store :=
  scanSince s (now - window)

/-- Association-list lookup for the per-resolution cell id columns. -/
def lookupCell (l : List (ℕ × String)) (res : ℕ) : Option String :=
  match l with
  | [] => none
  | p :: rest => if p.1 = res then some p.2 else lookupCell rest res

/-- The cell id column of a row at a given resolution. -/
def cellAt (r : VehicleState) (res : ℕ) : Option String :=
  lookupCell r.cellIds res

/-- Modelled from the spec: distinct vehicles of one cell group among the
in-window rows. -/
def cellMembers (s : Store) (now window : ℤ) (res : ℕ) (c : String) :
    List String :=
  ((List.filter (fun r => decide (cellAt r res = some c))
    (recentRows s now window)).map (fun r => r.vehicleId)).dedup

/-- Distinct-vehicle count of one cell among the in-window rows. -/
def cellCount (s : Store) (now window : ℤ) (res : ℕ) (c : String) : ℕ :=
  (cellMembers s now window res c).length

/-- Modelled from the spec: group in-window rows by their cell id at the
queried resolution and count distinct vehicles per group. -/
def groupCounts (rows : Store) (res : ℕ) : List (String × ℕ) :=
  ((rows.filterMap (fun r => cellAt r res)).dedup).map
    (fun c =>
      (c, ((List.filter (fun r => decide (cellAt r res = some c)) rows).map
        (fun r => r.vehicleId)).dedup.length))

/-- Modelled from the spec: error taxonomy of the Windowed Query Engine
relevant here — an unsupported resolution is a validation error. -/
inductive QueryError where
  | unsupportedResolution
deriving DecidableEq, Repr

/-- Modelled from the spec: the Windowed Query Engine (absent backend
`heatmap.py` / `duckdb_service.py`).  Validate the resolution, select rows
with `observedAt >= now - window`, group by `cellId[resolution]`, count
distinct `vehicleId` per group, discard groups with count below
`minCount`. -/
def occupancy (cfg : Config) (s : Store) (res : ℕ) (window : ℤ)
    (minCount : ℕ) (now : ℤ) : Except QueryError (List (String × ℕ)) :=
  if res ∈ cfg.resolutions then
    .ok ((groupCounts (recentRows s now window) res).filter
      (fun p => decide (minCount ≤ p.2)))
  else .error .unsupportedResolution

/-- Modelled from the spec: the retention sweep — delete VehicleState rows
whose `observedAt` is older than the retention horizon. -/
def retentionSweep (s : Store) (now horizon : ℤ) : Store :=
  List.filter (fun r => decide (now - horizon ≤ r.observedAt)) s

/-- The store is wellformed when it holds at most one row per vehicle. -/
def Wellformed (s : Store) : Prop :=
  (List.map (fun r => r.vehicleId) s).Nodup

instance (s : Store) : Decidable (Wellformed s) := by
  unfold Wellformed
  infer_instance

/-- Every row carries a cell id at every configured resolution. -/
def HasCells (cfg : Config) (s : Store) : Prop :=
  ∀ r ∈ s, ∀ res ∈ cfg.resolutions, (cellAt r res).isSome

instance (cfg : Config) (s : Store) : Decidable (HasCells cfg s) := by
  unfold HasCells
  infer_instance

/-! ## Frontend model (translated from the JavaScript sources) -/

/-- A GeoJSON feature's properties as consumed by Map.jsx:
`h3_index`, `count`, optional `last_updated`. -/
structure Feature where
  h3_index : String
  count : ℤ
  last_updated : Option String
deriving DecidableEq, Repr

/-- One alert entry produced by the Map component's alerts effect. -/
structure Alert where
  h3_index : String
  count : ℤ
  timestamp : String
deriving DecidableEq, Repr

/-- Map.jsx lines 54-69: the alerts effect.  A `none` payload stands for a
null payload or one without a `features` array; `nowIso` stands for
`new Date().toISOString()`, the fallback when `last_updated` is absent. -/
def mapAlerts (data : Option (List Feature)) (alertThreshold : ℤ)
    (nowIso : String) : List Alert :=
  match data with
  | none => []
  | some fs =>
      (List.filter (fun f => decide (f.count ≤ alertThreshold)) fs).map
        (fun f =>
          { h3_index := f.h3_index
            count := f.count
            timestamp := f.last_updated.getD nowIso })

/-- Map.jsx lines 44-51: the set of low-count hexagon ids, represented by
the list of ids whose membership realises the JS `Set`. -/
def lowCountHexagons (data : Option (List Feature)) (alertThreshold : ℤ) :
    List String :=
  match data with
  | none => []
  | some fs =>
      (List.filter (fun f => decide (f.count ≤ alertThreshold)) fs).map
        (fun f => f.h3_index)

/-- Map.jsx / Stats.jsx: the eight-entry RGBA color scale. -/
def COLOR_SCALE : List (ℕ × ℕ × ℕ × ℕ) :=
  [(255, 30, 30, 140), (255, 70, 40, 150), (255, 110, 30, 155),
   (255, 150, 20, 155), (255, 200, 30, 160), (200, 220, 40, 165),
   (120, 210, 70, 170), (60, 200, 90, 180)]

/-- JavaScript array indexing: a negative or out-of-range index yields
`undefined`, modelled as `none`. -/
def jsIndex {α : Type} (l : List α) (i : ℤ) : Option α :=
  if 0 ≤ i then l.get? i.toNat else none

/-- Map.jsx lines 20-26 (identically Stats.jsx's retrieved copy):
`getColorForCount`.  JS number arithmetic on the integer-valued counts is
modelled over ℚ; `Math.floor` is the rational floor. -/
def getColorForCount (count maxCount : ℚ) : Option (ℕ × ℕ × ℕ × ℕ) :=
  if maxCount = 0 then COLOR_SCALE.get? 0
  else
    jsIndex COLOR_SCALE ⌊min (count / maxCount) 1 * ((COLOR_SCALE.length : ℚ) - 1)⌋

/-- api.js line 3: `fetchHeatmapData(resolution = 6, minCount = 1)` —
the default `minCount` a caller gets when passing none. -/
def apiDefaultMinCount : ℕ := 1

/-- App.jsx line 27: `fetchHeatmapData(resolution, 0)` — the `minCount`
the app's `loadData` actually passes. -/
def appQueryMinCount : ℕ := 0

/-! ## Concrete instances used to exercise the theorems -/

/-- A concrete spatial-indexing function for exercising the model. -/
def demoCellFor : ℚ → ℚ → ℕ → String :=
  fun _ _ r => String.append "cell" (toString r)

/-- Vehicle A observed at t = 0 (spec scenario). -/
def demoObsA0 : Observation := ⟨"A", "feed", 1, 2, 0⟩

/-- Vehicle A observed at t = 60 (spec scenario). -/
def demoObsA60 : Observation := ⟨"A", "feed", 3, 4, 60⟩

/-- Vehicle A observed at t = 120 (spec scenario). -/
def demoObsA120 : Observation := ⟨"A", "feed", 5, 6, 120⟩

/-- The store after ingesting the three observations of vehicle A. -/
def demoStore : Store :=
  applyBatch demoCellFor repoConfig 130 []
    [demoObsA0, demoObsA60, demoObsA120]

/-- A handwritten VehicleState row in a given resolution-6 cell. -/
def demoRow (v c : String) : VehicleState :=
  ⟨v, "feed", 0, 0, [(6, c)], 100, 100⟩

/-- A store holding 5 distinct vehicles in cell X and 4 in cell Y. -/
def demoStore2 : Store :=
  [demoRow "v1" "X", demoRow "v2" "X", demoRow "v3" "X", demoRow "v4" "X",
   demoRow "v5" "X", demoRow "w1" "Y", demoRow "w2" "Y", demoRow "w3" "Y",
   demoRow "w4" "Y"]

/-- A concrete GeoJSON feature list for the frontend theorems. -/
def demoFeatures : List Feature := [⟨"h1", 2, none⟩, ⟨"h2", 5, some "t0"⟩]

/-! ## Store lemmas -/

lemma lookupState_nil (v : String) : lookupState ([] : Store) v = none := rfl

lemma lookupState_append_single (s : Store) (c : VehicleState) (v : String) :
    lookupState (s ++ [c]) v =
      (lookupState s v).or (if c.vehicleId = v then some c else none) := by
  induction s with
  | nil => simp [lookupState]
  | cons a t ih =>
      by_cases ha : a.vehicleId = v
      · simp [lookupState, ha]
      · simpa [lookupState, ha] using ih

lemma lookupState_mem {s : Store} {v : String} {r : VehicleState}
    (h : lookupState s v = some r) : r ∈ s ∧ r.vehicleId = v := by
  induction s with
  | nil => simp [lookupState] at h
  | cons a t ih =>
      by_cases ha : a.vehicleId = v
      · have : a = r := by simpa [lookupState, ha] using h
        exact ⟨by simp [this], this ▸ ha⟩
      · have h' : lookupState t v = some r := by simpa [lookupState, ha] using h
        exact ⟨List.mem_cons_of_mem _ (ih h').1, (ih h').2⟩

lemma lookupState_replaceRow_eq {s : Store} {c e : VehicleState}
    (h : lookupState s c.vehicleId = some e) :
    lookupState (replaceRow s c) c.vehicleId = some c := by
  induction s with
  | nil => simp [lookupState] at h
  | cons a t ih =>
      by_cases ha : a.vehicleId = c.vehicleId
      · simp [lookupState, replaceRow, ha]
      · have h' : lookupState t c.vehicleId = some e := by
          simpa [lookupState, ha] using h
        simpa [lookupState, replaceRow, ha] using ih h'

lemma lookupState_replaceRow_ne {s : Store} {c : VehicleState} {v : String}
    (h : v ≠ c.vehicleId) :
    lookupState (replaceRow s c) v = lookupState s v := by
  induction s with
  | nil => simp [lookupState, replaceRow]
  | cons a t ih =>
      by_cases ha : a.vehicleId = c.vehicleId
      · have hav : ¬ a.vehicleId = v := fun hh => h (hh.symm.trans ha)
        have hcv : ¬ c.vehicleId = v := fun hh => h hh.symm
        simpa [lookupState, replaceRow, ha, hav, hcv] using ih
      · by_cases hav : a.vehicleId = v
        · simp [lookupState, replaceRow, ha, hav, h]
        · simpa [lookupState, replaceRow, ha, hav] using ih

lemma map_vehicleId_replaceRow (s : Store) (c : VehicleState) :
    (replaceRow s c).map (fun r => r.vehicleId) =
      s.map (fun r => r.vehicleId) := by
  induction s with
  | nil => rfl
  | cons a t ih =>
      by_cases ha : a.vehicleId = c.vehicleId
      · simpa [replaceRow, ha] using ih
      · simpa [replaceRow, ha] using ih

lemma lookupState_upsert_self (s : Store) (c : VehicleState) :
    ∃ r, lookupState (upsertIfNewer s c) c.vehicleId = some r ∧
      c.observedAt ≤ r.observedAt ∧ r.vehicleId = c.vehicleId := by
  unfold upsertIfNewer
  cases h : lookupState s c.vehicleId with
  | none =>
      refine ⟨c, ?_, le_refl _, rfl⟩
      rw [lookupState_append_single, h]
      simp
  | some e =>
      by_cases hlt : e.observedAt < c.observedAt
      · exact ⟨c, by simp [hlt, lookupState_replaceRow_eq h], le_refl _, rfl⟩
      · refine ⟨e, by simp [hlt, h], le_of_not_lt hlt, (lookupState_mem h).2⟩

lemma lookupState_upsert_ne {s : Store} {c : VehicleState} {v : String}
    (h : v ≠ c.vehicleId) :
    lookupState (upsertIfNewer s c) v = lookupState s v := by
  unfold upsertIfNewer
  cases hl : lookupState s c.vehicleId with
  | none =>
      rw [lookupState_append_single]
      have hcv : ¬ c.vehicleId = v := fun hh => h hh.symm
      simp [hcv]
  | some e =>
      by_cases hlt : e.observedAt < c.observedAt
      · simp [hlt, lookupState_replaceRow_ne h]
      · simp [hlt]

lemma upsert_noop {s : Store} {c e : VehicleState}
    (h : lookupState s c.vehicleId = some e)
    (hle : c.observedAt ≤ e.observedAt) :
    upsertIfNewer s c = s := by
  unfold upsertIfNewer
  rw [h]
  simp [not_lt.2 hle]

lemma storedObs_le_upsert {s : Store} {v : String} {t : ℤ}
    (c : VehicleState) (h : storedObs s v = some t) :
    ∃ t₂, storedObs (upsertIfNewer s c) v = some t₂ ∧ t ≤ t₂ := by
  by_cases hv : v = c.vehicleId
  · subst hv
    cases hl : lookupState s c.vehicleId with
    | none =>
        rw [storedObs, hl] at h
        simp at h
    | some e =>
        have hte : e.observedAt = t := by
          rw [storedObs, hl] at h
          simpa using h
        have hup : upsertIfNewer s c =
            if e.observedAt < c.observedAt then replaceRow s c else s := by
          unfold upsertIfNewer
          rw [hl]
        by_cases hlt : e.observedAt < c.observedAt
        · refine ⟨c.observedAt, ?_, hte ▸ le_of_lt hlt⟩
          rw [hup, if_pos hlt, storedObs, lookupState_replaceRow_eq hl]
          rfl
        · refine ⟨t, ?_, le_refl t⟩
          rw [hup, if_neg hlt]
          exact h
  · exact ⟨t, by simpa [storedObs, lookupState_upsert_ne hv] using h, le_refl t⟩

/-! ## Batch lemmas -/

lemma applyBatch_nil (cellFor : ℚ → ℚ → ℕ → String) (cfg : Config)
    (tIngest : ℤ) (s : Store) : applyBatch cellFor cfg tIngest s [] = s := rfl

lemma applyBatch_cons (cellFor : ℚ → ℚ → ℕ → String) (cfg : Config)
    (tIngest : ℤ) (s : Store) (o : Observation) (b : List Observation) :
    applyBatch cellFor cfg tIngest s (o :: b) =
      applyBatch cellFor cfg tIngest
        (upsertIfNewer s (mkCandidate cellFor cfg tIngest o)) b := rfl

lemma storedObs_le_applyBatch {cellFor : ℚ → ℚ → ℕ → String} {cfg : Config}
    {tIngest : ℤ} {v : String} {t : ℤ} (b : List Observation) {s : Store}
    (h : storedObs s v = some t) :
    ∃ t₂, storedObs (applyBatch cellFor cfg tIngest s b) v = some t₂ ∧
      t ≤ t₂ := by
  induction b generalizing s t with
  | nil => exact ⟨t, h, le_refl t⟩
  | cons o rest ih =>
      obtain ⟨t₁, h₁, hle₁⟩ :=
        storedObs_le_upsert (mkCandidate cellFor cfg tIngest o) h
      obtain ⟨t₂, h₂, hle₂⟩ := ih h₁
      exact ⟨t₂, by rwa [applyBatch_cons], le_trans hle₁ hle₂⟩

lemma applyBatch_stored_ge (cellFor : ℚ → ℚ → ℕ → String) (cfg : Config)
    (tIngest : ℤ) (b : List Observation) (s : Store) :
    ∀ o ∈ b, ∃ t, storedObs (applyBatch cellFor cfg tIngest s b) o.vehicleId
      = some t ∧ o.observedAt ≤ t := by
  induction b generalizing s with
  | nil => intro o ho; simp at ho
  | cons o₀ rest ih =>
      intro o ho
      rcases List.mem_cons.1 ho with rfl | hmem
      · obtain ⟨r, hr, hobs, _⟩ :=
          lookupState_upsert_self s (mkCandidate cellFor cfg tIngest o)
        have hr' : lookupState
            (upsertIfNewer s (mkCandidate cellFor cfg tIngest o)) o.vehicleId
            = some r := hr
        have h₀ : storedObs (upsertIfNewer s (mkCandidate cellFor cfg tIngest o))
            o.vehicleId = some r.observedAt := by
          rw [storedObs, hr']
          rfl
        obtain ⟨t₂, h₂, hle₂⟩ := storedObs_le_applyBatch rest h₀
        rw [applyBatch_cons]
        exact ⟨t₂, h₂, le_trans hobs hle₂⟩
      · rw [applyBatch_cons]
        exact ih _ o hmem

lemma applyBatch_noop {cellFor : ℚ → ℚ → ℕ → String} {cfg : Config}
    {tIngest : ℤ} {b : List Observation} {s : Store}
    (h : ∀ o ∈ b, ∃ t, storedObs s o.vehicleId = some t ∧ o.observedAt ≤ t) :
    applyBatch cellFor cfg tIngest s b = s := by
  induction b with
  | nil => rfl
  | cons o rest ih =>
      obtain ⟨t, ht, hle⟩ := h o (List.mem_cons_self o rest)
      obtain ⟨e, he, hte⟩ : ∃ e, lookupState s o.vehicleId = some e ∧
          e.observedAt = t := by
        rw [storedObs] at ht
        cases hl : lookupState s o.vehicleId with
        | none => rw [hl] at ht; simp at ht
        | some e => rw [hl] at ht; exact ⟨e, rfl, by simpa using ht⟩
      have hno : upsertIfNewer s (mkCandidate cellFor cfg tIngest o) = s := by
        have he' : lookupState s
            (mkCandidate cellFor cfg tIngest o).vehicleId = some e := he
        have hle' : (mkCandidate cellFor cfg tIngest o).observedAt
            ≤ e.observedAt := hte ▸ hle
        exact upsert_noop he' hle'
      rw [applyBatch_cons, hno]
      exact ih (fun o₂ ho₂ => h o₂ (List.mem_cons_of_mem _ ho₂))

/-! ## Wellformedness lemmas -/

lemma lookupState_eq_none_iff {s : Store} {v : String} :
    lookupState s v = none ↔ ∀ r ∈ s, r.vehicleId ≠ v := by
  induction s with
  | nil => simp [lookupState]
  | cons a t ih =>
      by_cases ha : a.vehicleId = v
      · simp [lookupState, ha]
      · simp [lookupState, ha, ih]

lemma mem_upsert {s : Store} {c r : VehicleState}
    (h : r ∈ upsertIfNewer s c) : r ∈ s ∨ r = c := by
  unfold upsertIfNewer at h
  cases hl : lookupState s c.vehicleId with
  | none =>
      rw [hl] at h
      rcases List.mem_append.1 h with hs | hc
      · exact Or.inl hs
      · exact Or.inr (by simpa using hc)
  | some e =>
      rw [hl] at h
      have h₂ : r ∈ (if e.observedAt < c.observedAt then replaceRow s c else s) := h
      by_cases hlt : e.observedAt < c.observedAt
      · rw [if_pos hlt] at h₂
        obtain ⟨a, ha, hfa⟩ := List.mem_map.1 h₂
        by_cases hc : a.vehicleId = c.vehicleId
        · exact Or.inr (by simp [hc] at hfa; exact hfa.symm)
        · exact Or.inl (by simp [hc] at hfa; exact hfa ▸ ha)
      · rw [if_neg hlt] at h₂
        exact Or.inl h₂

lemma wellformed_upsert {s : Store} (c : VehicleState)
    (h : Wellformed s) : Wellformed (upsertIfNewer s c) := by
  unfold upsertIfNewer
  cases hl : lookupState s c.vehicleId with
  | none =>
      have hall : ∀ r ∈ s, r.vehicleId ≠ c.vehicleId :=
        lookupState_eq_none_iff.1 hl
      unfold Wellformed at h ⊢
      rw [List.map_append]
      rw [List.nodup_append]
      refine ⟨h, List.nodup_singleton _, ?_⟩
      intro a ha hb
      obtain ⟨r, hr, hra⟩ := List.mem_map.1 ha
      simp at hb
      exact hall r hr (hra.trans hb)
  | some e =>
      show Wellformed (if e.observedAt < c.observedAt then replaceRow s c else s)
      by_cases hlt : e.observedAt < c.observedAt
      · rw [if_pos hlt]
        unfold Wellformed at h ⊢
        rwa [map_vehicleId_replaceRow]
      · rwa [if_neg hlt]

lemma wellformed_applyBatch (cellFor : ℚ → ℚ → ℕ → String) (cfg : Config)
    (tIngest : ℤ) (b : List Observation) {s : Store} (h : Wellformed s) :
    Wellformed (applyBatch cellFor cfg tIngest s b) := by
  induction b generalizing s with
  | nil => exact h
  | cons o rest ih =>
      rw [applyBatch_cons]
      exact ih (wellformed_upsert _ h)

lemma lookupCell_map_pair (l : List ℕ) (g : ℕ → String) {res : ℕ}
    (h : res ∈ l) :
    lookupCell (l.map (fun r => (r, g r))) res = some (g res) := by
  induction l with
  | nil => simp at h
  | cons a t ih =>
      by_cases ha : a = res
      · subst ha
        simp [lookupCell]
      · rcases List.mem_cons.1 h with h₁ | h₂
        · exact absurd h₁.symm ha
        · simpa [lookupCell, ha] using ih h₂

lemma cellAt_mkCandidate (cellFor : ℚ → ℚ → ℕ → String) (cfg : Config)
    (tIngest : ℤ) (o : Observation) {res : ℕ} (h : res ∈ cfg.resolutions) :
    cellAt (mkCandidate cellFor cfg tIngest o) res =
      some (cellFor o.lat o.lon res) := by
  unfold cellAt mkCandidate
  exact lookupCell_map_pair cfg.resolutions (cellFor o.lat o.lon) h

lemma hasCells_upsert {cfg : Config} {s : Store} {c : VehicleState}
    (h : HasCells cfg s)
    (hc : ∀ res ∈ cfg.resolutions, (cellAt c res).isSome) :
    HasCells cfg (upsertIfNewer s c) := by
  intro r hr res hres
  rcases mem_upsert hr with hs | rfl
  · exact h r hs res hres
  · exact hc res hres

lemma hasCells_applyBatch (cellFor : ℚ → ℚ → ℕ → String) (cfg : Config)
    (tIngest : ℤ) (b : List Observation) {s : Store} (h : HasCells cfg s) :
    HasCells cfg (applyBatch cellFor cfg tIngest s b) := by
  induction b generalizing s with
  | nil => exact h
  | cons o rest ih =>
      rw [applyBatch_cons]
      refine ih (hasCells_upsert h ?_)
      intro res hres
      rw [cellAt_mkCandidate cellFor cfg tIngest o hres]
      rfl

lemma lookupState_of_mem_wellformed {s : Store} {r : VehicleState}
    (hw : Wellformed s) (hr : r ∈ s) :
    lookupState s r.vehicleId = some r := by
  induction s with
  | nil => simp at hr
  | cons a t ih =>
      unfold Wellformed at hw
      rw [List.map_cons, List.nodup_cons] at hw
      rcases List.mem_cons.1 hr with rfl | hmem
      · simp [lookupState]
      · have hne : ¬ a.vehicleId = r.vehicleId := by
          intro hEq
          exact hw.1 (hEq ▸ List.mem_map_of_mem _ hmem)
        simpa [lookupState, hne] using ih hw.2 hmem

/-! ## Query lemmas -/

lemma mem_recentRows {s : Store} {now window : ℤ} {r : VehicleState} :
    r ∈ recentRows s now window ↔ r ∈ s ∧ now - window ≤ r.observedAt := by
  simp [recentRows, scanSince, List.mem_filter]

lemma mem_cellMembers {s : Store} {now window : ℤ} {res : ℕ} {c : String}
    {v : String} :
    v ∈ cellMembers s now window res c ↔
      ∃ r ∈ recentRows s now window, cellAt r res = some c ∧
        r.vehicleId = v := by
  unfold cellMembers
  rw [List.mem_dedup, List.mem_map]
  constructor
  · rintro ⟨r, hr, rfl⟩
    have := List.mem_filter.1 hr
    exact ⟨r, this.1, by simpa using this.2, rfl⟩
  · rintro ⟨r, hr, hc, rfl⟩
    exact ⟨r, List.mem_filter.2 ⟨hr, by simpa using hc⟩, rfl⟩

lemma cellCount_eq_card (s : Store) (now window : ℤ) (res : ℕ) (c : String) :
    cellCount s now window res c =
      ((List.filter (fun r => decide (cellAt r res = some c))
        (recentRows s now window)).map (fun r => r.vehicleId)).toFinset.card := by
  rw [cellCount, cellMembers, List.card_toFinset]

lemma cellCount_mono_window (s : Store) (now : ℤ) (res : ℕ) (c : String)
    {w₁ w₂ : ℤ} (h : w₁ ≤ w₂) :
    cellCount s now w₁ res c ≤ cellCount s now w₂ res c := by
  rw [cellCount_eq_card, cellCount_eq_card]
  apply Finset.card_le_card
  intro v hv
  rw [List.mem_toFinset] at hv ⊢
  have hsub : List.Sublist (recentRows s now w₁) (recentRows s now w₂) := by
    unfold recentRows scanSince
    apply List.monotone_filter_right
    intro a ha
    have h₁ : now - w₁ ≤ a.observedAt := by simpa using ha
    have h₂ : now - w₂ ≤ a.observedAt := by omega
    simpa using h₂
  exact ((hsub.filter _).map _).subset hv

lemma occupancy_ok {cfg : Config} {s : Store} {res : ℕ} {window : ℤ}
    {minCount : ℕ} {now : ℤ} {l : List (String × ℕ)}
    (h : occupancy cfg s res window minCount now = .ok l) :
    res ∈ cfg.resolutions ∧
      l = (groupCounts (recentRows s now window) res).filter
        (fun p => decide (minCount ≤ p.2)) := by
  unfold occupancy at h
  by_cases hres : res ∈ cfg.resolutions
  · rw [if_pos hres] at h
    exact ⟨hres, by injection h with h2; exact h2.symm⟩
  · rw [if_neg hres] at h
    exact absurd h (by simp)

lemma occupancy_err {cfg : Config} {s : Store} {res : ℕ} {window : ℤ}
    {minCount : ℕ} {now : ℤ} (hres : ¬ res ∈ cfg.resolutions) :
    occupancy cfg s res window minCount now = .error .unsupportedResolution := by
  unfold occupancy
  rw [if_neg hres]

lemma mem_groupCounts_count {rows : Store} {res : ℕ} {p : String × ℕ}
    (h : p ∈ groupCounts rows res) :
    p.2 = ((List.filter (fun r => decide (cellAt r res = some p.1)) rows).map
      (fun r => r.vehicleId)).dedup.length := by
  unfold groupCounts at h
  obtain ⟨c, _, hc⟩ := List.mem_map.1 h
  rw [← hc]

lemma groupCounts_complete {rows : Store} {res : ℕ} {c : String}
    (h : ∃ r ∈ rows, cellAt r res = some c) :
    (c, ((List.filter (fun r => decide (cellAt r res = some c)) rows).map
      (fun r => r.vehicleId)).dedup.length) ∈ groupCounts rows res := by
  obtain ⟨r, hr, hc⟩ := h
  unfold groupCounts
  apply List.mem_map_of_mem
  rw [List.mem_dedup]
  exact List.mem_filterMap.2 ⟨r, hr, hc⟩

lemma recentRows_retentionSweep {s : Store} {now window horizon : ℤ}
    (h : window ≤ horizon) :
    recentRows (retentionSweep s now horizon) now window =
      recentRows s now window := by
  unfold recentRows scanSince retentionSweep
  rw [List.filter_filter]
  apply List.filter_congr
  intro r _
  by_cases hw : now - window ≤ r.observedAt
  · have hh : now - horizon ≤ r.observedAt := le_trans (by omega) hw
    simp [hw, hh]
  · simp [hw]

lemma upsert_fresh {s : Store} {c : VehicleState}
    (h : lookupState s c.vehicleId = none) :
    lookupState (upsertIfNewer s c) c.vehicleId = some c := by
  unfold upsertIfNewer
  rw [h, lookupState_append_single, h]
  simp

lemma upsert_applies {s : Store} {c e : VehicleState}
    (h : lookupState s c.vehicleId = some e)
    (hlt : e.observedAt < c.observedAt) :
    lookupState (upsertIfNewer s c) c.vehicleId = some c := by
  have hup : upsertIfNewer s c =
      if e.observedAt < c.observedAt then replaceRow s c else s := by
    unfold upsertIfNewer
    rw [h]
  rw [hup, if_pos hlt]
  exact lookupState_replaceRow_eq h

lemma storedObs_le_applyBatches {cellFor : ℚ → ℚ → ℕ → String} {cfg : Config}
    {tIngest : ℤ} {v : String} {t : ℤ} (bs : List (List Observation))
    {s : Store} (h : storedObs s v = some t) :
    ∃ t₂, storedObs (applyBatches cellFor cfg tIngest s bs) v = some t₂ ∧
      t ≤ t₂ := by
  induction bs generalizing s t with
  | nil => exact ⟨t, h, le_refl t⟩
  | cons b rest ih =>
      obtain ⟨t₁, h₁, hle₁⟩ := storedObs_le_applyBatch b h
      obtain ⟨t₂, h₂, hle₂⟩ := ih h₁
      exact ⟨t₂, h₂, le_trans hle₁ hle₂⟩

/-! ## Claim theorems -/

/-- C2.  Batch application is idempotent: for every Vehicle State Store
state `s` and every batch `b` of Observations, applying `b` twice starting
from `s` yields exactly the same VehicleState table as applying it once
(whatever ingestion timestamps the two deliveries carry), and in
particular every occupancy query returns identical counts after the
redelivery. -/
theorem applyBatch_idempotent (cellFor : ℚ → ℚ → ℕ → String) (cfg : Config)
    (t₁ t₂ : ℤ) (s : Store) (b : List Observation) :
    applyBatch cellFor cfg t₂ (applyBatch cellFor cfg t₁ s b) b =
      applyBatch cellFor cfg t₁ s b ∧
    ∀ (res : ℕ) (window : ℤ) (minCount : ℕ) (now : ℤ),
      occupancy cfg (applyBatch cellFor cfg t₂ (applyBatch cellFor cfg t₁ s b) b)
        res window minCount now =
      occupancy cfg (applyBatch cellFor cfg t₁ s b) res window minCount now := by
  have h : applyBatch cellFor cfg t₂ (applyBatch cellFor cfg t₁ s b) b =
      applyBatch cellFor cfg t₁ s b :=
    applyBatch_noop (applyBatch_stored_ge cellFor cfg t₁ b s)
  exact ⟨h, fun res window minCount now => by rw [h]⟩

/-- C3.  Per-vehicle monotonicity: across any sequence of successful batch
applications the stored `observedAt` of a vehicle never decreases, and an
incoming candidate whose `observedAt` is less than or equal to the stored
value leaves the store completely unchanged. -/
theorem observedAt_monotone (cellFor : ℚ → ℚ → ℕ → String) (cfg : Config)
    (tIngest : ℤ) :
    (∀ (s : Store) (bs : List (List Observation)) (v : String) (t : ℤ),
      storedObs s v = some t →
      ∃ t₂, storedObs (applyBatches cellFor cfg tIngest s bs) v = some t₂ ∧
        t ≤ t₂) ∧
    (∀ (s : Store) (c e : VehicleState),
      lookupState s c.vehicleId = some e → c.observedAt ≤ e.observedAt →
      upsertIfNewer s c = s) := by
  constructor
  · intro s bs v t h
    exact storedObs_le_applyBatches bs h
  · intro s c e h hle
    exact upsert_noop h hle

/-- C1.  The upsert applies a candidate row iff no row for the vehicle
exists or the candidate's `observedAt` is strictly greater than the stored
one; on a tie or regression the store is left unchanged (no error value
exists).  Consequently, processing two observations of one vehicle with
`observedAt` values `t₁ < t₂` in either arrival order leaves the row
observed at `t₂` in the store (starting from any store whose row for that
vehicle, if present, is older than `t₂`). -/
theorem upsert_policy_and_lww (cellFor : ℚ → ℚ → ℕ → String) (cfg : Config)
    (tIngest : ℤ) :
    (∀ (s : Store) (c : VehicleState),
      (lookupState s c.vehicleId = none → upsertIfNewer s c = s ++ [c]) ∧
      ∀ e, lookupState s c.vehicleId = some e →
        (e.observedAt < c.observedAt → upsertIfNewer s c = replaceRow s c) ∧
        (c.observedAt ≤ e.observedAt → upsertIfNewer s c = s)) ∧
    (∀ (s : Store) (o₁ o₂ : Observation),
      o₁.vehicleId = o₂.vehicleId →
      o₁.observedAt < o₂.observedAt →
      (∀ e, lookupState s o₂.vehicleId = some e →
        e.observedAt < o₂.observedAt) →
      lookupState (applyBatch cellFor cfg tIngest s [o₁, o₂]) o₂.vehicleId =
        some (mkCandidate cellFor cfg tIngest o₂) ∧
      lookupState (applyBatch cellFor cfg tIngest s [o₂, o₁]) o₂.vehicleId =
        some (mkCandidate cellFor cfg tIngest o₂)) := by
  constructor
  · intro s c
    constructor
    · intro h
      unfold upsertIfNewer
      rw [h]
    · intro e h
      have hup : upsertIfNewer s c =
          if e.observedAt < c.observedAt then replaceRow s c else s := by
        unfold upsertIfNewer
        rw [h]
      exact ⟨fun hlt => by rw [hup, if_pos hlt],
        fun hle => by rw [hup, if_neg (not_lt.2 hle)]⟩
  · intro s o₁ o₂ hv hlt hstale
    have hv1 : (mkCandidate cellFor cfg tIngest o₁).vehicleId =
        o₂.vehicleId := hv
    constructor
    · have hstep : ∃ r, lookupState
          (upsertIfNewer s (mkCandidate cellFor cfg tIngest o₁))
          o₂.vehicleId = some r ∧ r.observedAt < o₂.observedAt := by
        cases hl : lookupState s o₂.vehicleId with
        | none =>
            have hl1 : lookupState s
                (mkCandidate cellFor cfg tIngest o₁).vehicleId = none := by
              rw [hv1]
              exact hl
            refine ⟨mkCandidate cellFor cfg tIngest o₁, ?_, hlt⟩
            have hf := upsert_fresh hl1
            rwa [hv1] at hf
        | some e =>
            have he : e.observedAt < o₂.observedAt := hstale e hl
            have hl1 : lookupState s
                (mkCandidate cellFor cfg tIngest o₁).vehicleId = some e := by
              rw [hv1]
              exact hl
            by_cases h1 : e.observedAt <
                (mkCandidate cellFor cfg tIngest o₁).observedAt
            · refine ⟨mkCandidate cellFor cfg tIngest o₁, ?_, hlt⟩
              have ha := upsert_applies hl1 h1
              rwa [hv1] at ha
            · have hno : upsertIfNewer s
                  (mkCandidate cellFor cfg tIngest o₁) = s :=
                upsert_noop hl1 (not_lt.1 h1)
              refine ⟨e, ?_, he⟩
              rw [hno]
              exact hl
      obtain ⟨r, hr, hro⟩ := hstep
      have hr2 : lookupState
          (upsertIfNewer s (mkCandidate cellFor cfg tIngest o₁))
          (mkCandidate cellFor cfg tIngest o₂).vehicleId = some r := hr
      exact upsert_applies hr2 hro
    · have h2 : lookupState
          (upsertIfNewer s (mkCandidate cellFor cfg tIngest o₂))
          o₂.vehicleId = some (mkCandidate cellFor cfg tIngest o₂) := by
        cases hl : lookupState s o₂.vehicleId with
        | none => exact upsert_fresh hl
        | some e => exact upsert_applies hl (hstale e hl)
      have h2' : lookupState
          (upsertIfNewer s (mkCandidate cellFor cfg tIngest o₂))
          (mkCandidate cellFor cfg tIngest o₁).vehicleId =
          some (mkCandidate cellFor cfg tIngest o₂) := by
        rw [hv1]
        exact h2
      have hno : upsertIfNewer
          (upsertIfNewer s (mkCandidate cellFor cfg tIngest o₂))
          (mkCandidate cellFor cfg tIngest o₁) =
          upsertIfNewer s (mkCandidate cellFor cfg tIngest o₂) :=
        upsert_noop h2' (le_of_lt hlt)
      show lookupState (upsertIfNewer
          (upsertIfNewer s (mkCandidate cellFor cfg tIngest o₂))
          (mkCandidate cellFor cfg tIngest o₁)) o₂.vehicleId =
          some (mkCandidate cellFor cfg tIngest o₂)
      rw [hno]
      exact h2

/-- C5.  Window monotonicity: for a fixed store, resolution, cell and
query instant, widening the window never decreases the distinct-vehicle
count of a cell; and the count the query engine reports for a cell is
exactly that distinct-vehicle count (so the property speaks about the
returned counts). -/
theorem window_monotonicity (s : Store) (now : ℤ) (res : ℕ) (c : String)
    {w₁ w₂ : ℤ} (h : w₁ ≤ w₂) :
    cellCount s now w₁ res c ≤ cellCount s now w₂ res c ∧
    ∀ (cfg : Config) (window : ℤ) (minCount : ℕ) (l : List (String × ℕ)),
      occupancy cfg s res window minCount now = .ok l →
      ∀ p ∈ l, p.2 = cellCount s now window res p.1 := by
  refine ⟨cellCount_mono_window s now res c h, ?_⟩
  intro cfg window minCount l hok p hp
  obtain ⟨hres, hl⟩ := occupancy_ok hok
  rw [hl] at hp
  have hp' := List.mem_filter.1 hp
  have hcount := mem_groupCounts_count hp'.1
  rw [cellCount, cellMembers]
  exact hcount

/-- C6.  Retention bound and non-interference: after the retention sweep
no row older than the horizon remains, and any query whose window lies
within the horizon returns the same result before and after the sweep. -/
theorem retention_bound (cfg : Config) (s : Store) (res : ℕ)
    (minCount : ℕ) (now window horizon : ℤ) (h : window ≤ horizon) :
    (∀ r ∈ retentionSweep s now horizon, now - horizon ≤ r.observedAt) ∧
    occupancy cfg (retentionSweep s now horizon) res window minCount now =
      occupancy cfg s res window minCount now := by
  constructor
  · intro r hr
    have hm := List.mem_filter.1 hr
    simpa using hm.2
  · unfold occupancy
    rw [recentRows_retentionSweep h]

/-- C7.  Resolution validation: with the repository's configured
resolution set `[6, 7, 8, 9]`, querying any resolution outside the set
yields the `unsupportedResolution` validation error (no silent fallback),
while querying any configured resolution always yields an `ok` result. -/
theorem resolution_validation (s : Store) (res : ℕ) (window : ℤ)
    (minCount : ℕ) (now : ℤ) :
    repoConfig.resolutions = [6, 7, 8, 9] ∧
    (¬ (res = 6 ∨ res = 7 ∨ res = 8 ∨ res = 9) →
      occupancy repoConfig s res window minCount now =
        .error .unsupportedResolution) ∧
    ((res = 6 ∨ res = 7 ∨ res = 8 ∨ res = 9) →
      ∃ l, occupancy repoConfig s res window minCount now = .ok l) := by
  refine ⟨rfl, ?_, ?_⟩
  · intro h
    apply occupancy_err
    simpa [repoConfig] using h
  · intro h
    have hres : res ∈ repoConfig.resolutions := by
      simpa [repoConfig] using h
    exact ⟨_, by unfold occupancy; rw [if_pos hres]⟩

/-- C8.  `minCount` is an inclusive lower bound: every cell the query
returns has a distinct-vehicle count at least `minCount`, and every cell
that occurs among the in-window rows and whose distinct-vehicle count
reaches `minCount` (in particular, equals it) is returned.  The
frontend's callers use defaults 1 (api.js) and 0 (App.jsx). -/
theorem minCount_inclusive (cfg : Config) (s : Store) (res : ℕ)
    (window now : ℤ) (minCount : ℕ) (l : List (String × ℕ))
    (hok : occupancy cfg s res window minCount now = .ok l) :
    (∀ p ∈ l, minCount ≤ p.2) ∧
    (∀ c, (∃ r ∈ recentRows s now window, cellAt r res = some c) →
      minCount ≤ cellCount s now window res c →
      (c, cellCount s now window res c) ∈ l) ∧
    apiDefaultMinCount = 1 ∧ appQueryMinCount = 0 := by
  obtain ⟨hres, hl⟩ := occupancy_ok hok
  refine ⟨?_, ?_, rfl, rfl⟩
  · intro p hp
    rw [hl] at hp
    have hm := List.mem_filter.1 hp
    simpa using hm.2
  · intro c hc hmin
    rw [hl]
    apply List.mem_filter.2
    refine ⟨?_, by simpa using hmin⟩
    have hgc := groupCounts_complete hc
    exact hgc

lemma counted_once {cfg : Config} {s : Store} {res : ℕ}
    (hw : Wellformed s) (hc : HasCells cfg s) (hres : res ∈ cfg.resolutions)
    {v : String} {row : VehicleState} {now window : ℤ}
    (hlook : lookupState s v = some row)
    (hwin : now - window ≤ row.observedAt) :
    ∃ c, cellAt row res = some c ∧
      v ∈ cellMembers s now window res c ∧
      (cellMembers s now window res c).count v = 1 ∧
      ∀ c₂, v ∈ cellMembers s now window res c₂ → c₂ = c := by
  obtain ⟨hmem, hvid⟩ := lookupState_mem hlook
  obtain ⟨c, hcx⟩ := Option.isSome_iff_exists.1 (hc row hmem res hres)
  have hvmem : v ∈ cellMembers s now window res c :=
    mem_cellMembers.2 ⟨row, mem_recentRows.2 ⟨hmem, hwin⟩, hcx, hvid⟩
  refine ⟨c, hcx, hvmem, ?_, ?_⟩
  · have hnd : (cellMembers s now window res c).Nodup := by
      unfold cellMembers
      exact List.nodup_dedup _
    exact List.count_eq_one_of_mem hnd hvmem
  · intro c₂ hv2
    obtain ⟨r₂, hr₂, hc₂, hvid₂⟩ := mem_cellMembers.1 hv2
    have hr₂s : r₂ ∈ s := (mem_recentRows.1 hr₂).1
    have hlk : lookupState s v = some r₂ := by
      have h₀ := lookupState_of_mem_wellformed hw hr₂s
      rwa [hvid₂] at h₀
    have hEq : r₂ = row := by
      rw [hlook] at hlk
      exact (Option.some.inj hlk).symm
    rw [hEq] at hc₂
    rw [hcx] at hc₂
    injection hc₂ with h₂
    exact h₂.symm

/-- C4.  No double counting: after ingesting any batch (however many
observations it holds per vehicle) into a wellformed store, every vehicle
whose stored `observedAt` lies inside the query window is a member of
exactly one cell group at the queried resolution — the one named by its
stored cell id — and its multiplicity in that group's distinct-member
list is exactly 1. -/
theorem no_double_counting (cellFor : ℚ → ℚ → ℕ → String) (cfg : Config)
    (tIngest : ℤ) (s₀ : Store) (b : List Observation) (res : ℕ)
    (hw : Wellformed s₀) (hc : HasCells cfg s₀)
    (hres : res ∈ cfg.resolutions) :
    Wellformed (applyBatch cellFor cfg tIngest s₀ b) ∧
    HasCells cfg (applyBatch cellFor cfg tIngest s₀ b) ∧
    ∀ (v : String) (row : VehicleState) (now window : ℤ),
      lookupState (applyBatch cellFor cfg tIngest s₀ b) v = some row →
      now - window ≤ row.observedAt →
      ∃ c, cellAt row res = some c ∧
        v ∈ cellMembers (applyBatch cellFor cfg tIngest s₀ b)
          now window res c ∧
        (cellMembers (applyBatch cellFor cfg tIngest s₀ b)
          now window res c).count v = 1 ∧
        ∀ c₂, v ∈ cellMembers (applyBatch cellFor cfg tIngest s₀ b)
          now window res c₂ → c₂ = c := by
  have hW := wellformed_applyBatch cellFor cfg tIngest b hw
  have hC := hasCells_applyBatch cellFor cfg tIngest b hc
  refine ⟨hW, hC, ?_⟩
  intro v row now window hlook hwin
  exact counted_once hW hC hres hlook hwin

/-- C9.  The Map component's alert generation uses an inclusive threshold
and agrees with its highlight set: the alert list holds one entry per
feature with `count ≤ alertThreshold`, in feature order, carrying that
feature's `h3_index` and `count`; the set of highlighted hexagons equals
the set of alerted hexagon ids; and a null payload (or one without
features) produces no alerts. -/
theorem alerts_inclusive_and_agree (thr : ℤ) (nowIso : String) :
    (mapAlerts none thr nowIso = []) ∧
    (mapAlerts (some []) thr nowIso = []) ∧
    (∀ fs, (mapAlerts (some fs) thr nowIso).map
        (fun a => (a.h3_index, a.count)) =
      (List.filter (fun f => decide (f.count ≤ thr)) fs).map
        (fun f => (f.h3_index, f.count))) ∧
    (∀ fs a, a ∈ mapAlerts (some fs) thr nowIso →
      ∃ f ∈ fs, f.count ≤ thr ∧ a.h3_index = f.h3_index ∧
        a.count = f.count ∧ a.timestamp = f.last_updated.getD nowIso) ∧
    (∀ d, (lowCountHexagons d thr).toFinset =
      ((mapAlerts d thr nowIso).map (fun a => a.h3_index)).toFinset) := by
  refine ⟨rfl, rfl, ?_, ?_, ?_⟩
  · intro fs
    rw [mapAlerts, List.map_map]
    rfl
  · intro fs a ha
    rw [mapAlerts] at ha
    obtain ⟨f, hf, hfa⟩ := List.mem_map.1 ha
    have hfm := List.mem_filter.1 hf
    exact ⟨f, hfm.1, by simpa using hfm.2, by rw [← hfa], by rw [← hfa],
      by rw [← hfa]⟩
  · intro d
    cases d with
    | none => rfl
    | some fs =>
        rw [mapAlerts, lowCountHexagons, List.map_map]
        rfl

/-- C10.  `getColorForCount` is total and never indexes the color scale
out of bounds: for non-negative `count` and `maxCount` it returns one of
the eight COLOR_SCALE entries; with `maxCount = 0` it returns the lowest
density color, and with `0 < maxCount ≤ count` the ratio is clamped to 1
and the highest-density color is returned. -/
theorem getColorForCount_safe (count maxCount : ℚ)
    (h₁ : 0 ≤ count) (h₂ : 0 ≤ maxCount) :
    (∃ color, getColorForCount count maxCount = some color ∧
      color ∈ COLOR_SCALE) ∧
    (maxCount = 0 → getColorForCount count maxCount =
      some (255, 30, 30, 140)) ∧
    (0 < maxCount → maxCount ≤ count → getColorForCount count maxCount =
      some (60, 200, 90, 180)) := by
  by_cases h0 : maxCount = 0
  · subst h0
    refine ⟨⟨(255, 30, 30, 140), rfl, by decide⟩, fun _ => rfl, ?_⟩
    intro hpos _
    exact absurd hpos (lt_irrefl 0)
  · have hpos : 0 < maxCount := lt_of_le_of_ne h₂ (Ne.symm h0)
    have hratio : 0 ≤ count / maxCount := div_nonneg h₁ h₂
    have hx0 : (0:ℚ) ≤ min (count / maxCount) 1 :=
      le_min hratio (by norm_num)
    have hx1 : min (count / maxCount) 1 ≤ 1 := min_le_right _ _
    have hlen : ((COLOR_SCALE.length : ℚ) - 1) = 7 := by
      norm_num [COLOR_SCALE]
    have hfloor0 : 0 ≤ ⌊min (count / maxCount) 1 *
        ((COLOR_SCALE.length : ℚ) - 1)⌋ := by
      apply Int.floor_nonneg.2
      rw [hlen]
      positivity
    have hfloor7 : ⌊min (count / maxCount) 1 *
        ((COLOR_SCALE.length : ℚ) - 1)⌋ ≤ 7 := by
      rw [hlen]
      have hle : min (count / maxCount) 1 * 7 ≤ 7 := by nlinarith
      calc ⌊min (count / maxCount) 1 * 7⌋ ≤ ⌊(7:ℚ)⌋ := Int.floor_le_floor hle
        _ = 7 := by norm_num
    refine ⟨?_, fun hEq => absurd hEq h0, ?_⟩
    · rw [getColorForCount, if_neg h0, jsIndex, if_pos hfloor0]
      have htn : (⌊min (count / maxCount) 1 *
          ((COLOR_SCALE.length : ℚ) - 1)⌋).toNat < COLOR_SCALE.length := by
        have h8 : COLOR_SCALE.length = 8 := by decide
        omega
      exact ⟨COLOR_SCALE.get ⟨_, htn⟩, List.get?_eq_get htn,
        List.get_mem COLOR_SCALE _ htn⟩
    · intro _ hle
      have hge : 1 ≤ count / maxCount := (one_le_div hpos).2 hle
      have hmin : min (count / maxCount) 1 = 1 := min_eq_right hge
      rw [getColorForCount, if_neg h0, hmin, hlen]
      have hfl : ⌊(1:ℚ) * 7⌋ = 7 := by norm_num
      rw [jsIndex, hfl]
      rfl

/-! ## Witnesses -/

/-- Witness for C1 at the spec's two-observation scenario. -/
theorem upsert_policy_and_lww_witness :
    demoObsA0.vehicleId = demoObsA60.vehicleId ∧
    demoObsA0.observedAt < demoObsA60.observedAt ∧
    lookupState (applyBatch demoCellFor repoConfig 130 []
        [demoObsA0, demoObsA60]) demoObsA60.vehicleId =
      some (mkCandidate demoCellFor repoConfig 130 demoObsA60) ∧
    lookupState (applyBatch demoCellFor repoConfig 130 []
        [demoObsA60, demoObsA0]) demoObsA60.vehicleId =
      some (mkCandidate demoCellFor repoConfig 130 demoObsA60) := by
  have h := (upsert_policy_and_lww demoCellFor repoConfig 130).2 []
    demoObsA0 demoObsA60 rfl (by decide)
    (fun e he => by simp [lookupState] at he)
  exact ⟨rfl, by decide, h.1, h.2⟩

/-- Witness for C3: the stored timestamp of vehicle A never decreases
under a redelivered stale batch, and a stale candidate is a no-op. -/
theorem observedAt_monotone_witness :
    storedObs demoStore "A" = some 120 ∧
    (∃ t₂, storedObs (applyBatches demoCellFor repoConfig 200 demoStore
      [[demoObsA0]]) "A" = some t₂ ∧ (120:ℤ) ≤ t₂) ∧
    upsertIfNewer demoStore
      (mkCandidate demoCellFor repoConfig 200 demoObsA60) = demoStore := by
  refine ⟨by decide, ?_, ?_⟩
  · exact (observedAt_monotone demoCellFor repoConfig 200).1 demoStore
      [[demoObsA0]] "A" 120 (by decide)
  · exact (observedAt_monotone demoCellFor repoConfig 200).2 demoStore
      (mkCandidate demoCellFor repoConfig 200 demoObsA60)
      (mkCandidate demoCellFor repoConfig 130 demoObsA120)
      (by decide) (by decide)

/-- Witness for C4 at the spec scenario: vehicle A reported three times
within the window yet is counted exactly once, in exactly one cell. -/
theorem no_double_counting_witness :
    Wellformed ([] : Store) ∧ HasCells repoConfig ([] : Store) ∧
    (6 ∈ repoConfig.resolutions) ∧
    lookupState demoStore "A" =
      some (mkCandidate demoCellFor repoConfig 130 demoObsA120) ∧
    ((130:ℤ) - 300 ≤
      (mkCandidate demoCellFor repoConfig 130 demoObsA120).observedAt) ∧
    (∃ c, cellAt (mkCandidate demoCellFor repoConfig 130 demoObsA120) 6 =
        some c ∧
      "A" ∈ cellMembers demoStore 130 300 6 c ∧
      (cellMembers demoStore 130 300 6 c).count "A" = 1 ∧
      ∀ c₂, "A" ∈ cellMembers demoStore 130 300 6 c₂ → c₂ = c) := by
  refine ⟨by decide, by decide, by decide, by decide, by decide, ?_⟩
  exact (no_double_counting demoCellFor repoConfig 130 []
    [demoObsA0, demoObsA60, demoObsA120] 6 (by decide) (by decide)
    (by decide)).2.2 "A" (mkCandidate demoCellFor repoConfig 130 demoObsA120)
    130 300 (by decide) (by decide)

/-- Witness for C5: widening the window from 1 s to 300 s does not
decrease cell6's count, and the reported count equals the
distinct-vehicle count. -/
theorem window_monotonicity_witness :
    ((1:ℤ) ≤ 300) ∧
    cellCount demoStore 130 1 6 "cell6" ≤
      cellCount demoStore 130 300 6 "cell6" ∧
    occupancy repoConfig demoStore 6 300 0 130 = .ok [("cell6", 1)] ∧
    ∀ p ∈ [(("cell6" : String), 1)],
      p.2 = cellCount demoStore 130 300 6 p.1 := by
  have h := window_monotonicity demoStore 130 6 "cell6" (by decide : (1:ℤ) ≤ 300)
  exact ⟨by decide, h.1, by rfl, h.2 repoConfig 300 0 [("cell6", 1)] (by rfl)⟩

/-- Witness for C6: sweeping with a 3600 s horizon keeps all recent rows
and leaves a 10 s-window query unchanged. -/
theorem retention_bound_witness :
    ((10:ℤ) ≤ 3600) ∧
    (∀ r ∈ retentionSweep demoStore 130 3600, (130:ℤ) - 3600 ≤
      r.observedAt) ∧
    occupancy repoConfig (retentionSweep demoStore 130 3600) 6 10 0 130 =
      occupancy repoConfig demoStore 6 10 0 130 := by
  have h := retention_bound repoConfig demoStore 6 0 130 10 3600
    (by decide : (10:ℤ) ≤ 3600)
  exact ⟨by decide, h.1, h.2⟩

/-- Witness for C7: resolution 5 is rejected with the validation error,
resolution 8 succeeds. -/
theorem resolution_validation_witness :
    (¬ ((5:ℕ) = 6 ∨ (5:ℕ) = 7 ∨ (5:ℕ) = 8 ∨ (5:ℕ) = 9)) ∧
    occupancy repoConfig demoStore 5 300 1 130 =
      .error .unsupportedResolution ∧
    ((8:ℕ) = 6 ∨ (8:ℕ) = 7 ∨ (8:ℕ) = 8 ∨ (8:ℕ) = 9) ∧
    (∃ l, occupancy repoConfig demoStore 8 300 1 130 = .ok l) := by
  refine ⟨by decide, ?_, by decide, ?_⟩
  · exact (resolution_validation demoStore 5 300 1 130).2.1 (by decide)
  · exact (resolution_validation demoStore 8 300 1 130).2.2 (by decide)

/-- Witness for C8 at the spec scenario: with minCount 5 the cell holding
5 distinct vehicles is returned and the cell holding 4 is not. -/
theorem minCount_inclusive_witness :
    occupancy repoConfig demoStore2 6 300 5 130 = .ok [("X", 5)] ∧
    (∀ p ∈ [(("X" : String), 5)], 5 ≤ p.2) ∧
    (∃ r ∈ recentRows demoStore2 130 300, cellAt r 6 = some "X") ∧
    (5 ≤ cellCount demoStore2 130 300 6 "X") ∧
    (("X", cellCount demoStore2 130 300 6 "X") ∈ [(("X" : String), 5)]) ∧
    cellCount demoStore2 130 300 6 "Y" = 4 ∧
    (∀ p ∈ [(("X" : String), 5)], p.1 ≠ "Y") := by
  have h := minCount_inclusive repoConfig demoStore2 6 300 130 5
    [("X", 5)] (by rfl)
  exact ⟨by rfl, h.1, by decide, by decide,
    h.2.1 "X" (by decide) (by decide), by decide, by decide⟩

/-- Witness for C9 at a concrete payload with threshold 3. -/
theorem alerts_inclusive_and_agree_witness :
    ((⟨"h1", 2, "now"⟩ : Alert) ∈ mapAlerts (some demoFeatures) 3 "now") ∧
    (∃ f ∈ demoFeatures, f.count ≤ 3 ∧
      (⟨"h1", 2, "now"⟩ : Alert).h3_index = f.h3_index ∧
      (⟨"h1", 2, "now"⟩ : Alert).count = f.count ∧
      (⟨"h1", 2, "now"⟩ : Alert).timestamp = f.last_updated.getD "now") ∧
    (lowCountHexagons (some demoFeatures) 3).toFinset =
      ((mapAlerts (some demoFeatures) 3 "now").map
        (fun a => a.h3_index)).toFinset := by
  have h := alerts_inclusive_and_agree 3 "now"
  refine ⟨by decide, ?_, h.2.2.2.2 (some demoFeatures)⟩
  exact h.2.2.2.1 demoFeatures ⟨"h1", 2, "now"⟩ (by decide)

/-- Witness for C10: evaluation at a clamped ratio and at maxCount 0. -/
theorem getColorForCount_safe_witness :
    ((0:ℚ) ≤ 3) ∧ ((0:ℚ) ≤ 2) ∧
    getColorForCount 3 2 = some (60, 200, 90, 180) ∧
    getColorForCount 0 0 = some (255, 30, 30, 140) := by
  refine ⟨by norm_num, by norm_num, ?_, ?_⟩
  · exact (getColorForCount_safe 3 2 (by norm_num) (by norm_num)).2.2
      (by norm_num) (by norm_num)
  · exact (getColorForCount_safe 0 0 le_rfl le_rfl).2.1 rfl

end ScooterMap
